import Mathlib

/-!
Verification of the aioli/blacksmith HTTP client runtime call-plane.

This file shallowly embeds the data model and the operations of the
repository (request serialization, request-body serializers, HTTP cache
middleware, circuit-breaker middleware, authorization middleware, the
factory/client middleware lists and URL-pattern resolution) and proves the
behavioural claims about them.

Python dictionaries are embedded as association lists observed through
`List.lookup`; mutable attributes are embedded either as explicit state
passing or (for the middleware lists, where aliasing matters) as a small
heap. Exceptions are embedded as `Except` values or as explicit outcome
constructors.
-/

namespace Blacksmith

/-! ## Data model: HTTP primitives (`blacksmith.domain.model.http`)

The module itself is not under `src/`; the shapes below follow the spec
(§3, Data model) and the constructions used throughout the repository's
tests.  Header maps, path maps and query maps are association lists. -/

/-- `HTTPResponse`: status code, headers, and the parsed payload (kept as an
opaque string representation, since no claim inspects the payload's
structure). -/
structure HTTPResponse where
  status_code : Nat
  headers : List (String × String)
  json : String
  deriving DecidableEq, Repr

/-- `HTTPRequest`: method, URL pattern with `{name}` placeholders, path
variables, query parameters, headers, and a serialized body. -/
structure HTTPRequest where
  method : String
  url_pattern : String
  path : List (String × String) := []
  querystring : List (String × String) := []
  headers : List (String × String) := []
  body : String := ""
  deriving DecidableEq, Repr

/-- ASCII lowercase of one character (`str.lower()` on the header alphabet). -/
def charLower (c : Char) : Char :=
  if 'A' ≤ c && c ≤ 'Z' then Char.ofNat (c.toNat + 32) else c

/-- ASCII lowercase of a string (`str.lower()`). -/
def lowerStr (s : String) : String :=
  String.mk (s.data.map charLower)

/-- `str.split(sep)` for a one-character separator. -/
def splitOnChar (sep : Char) : List Char → List (List Char)
  | [] => [[]]
  | c :: rest =>
    match splitOnChar sep rest with
    | [] => [[]]
    | cur :: done => if c = sep then [] :: cur :: done else (c :: cur) :: done

/-- `str.strip()`: drop surrounding whitespace. -/
def trimChars (l : List Char) : List Char :=
  ((l.dropWhile Char.isWhitespace).reverse.dropWhile Char.isWhitespace).reverse

/-- The numeric value of a decimal digit character. -/
def digitVal (c : Char) : Option Nat :=
  if c.isDigit then some (c.toNat - 48) else none

/-- `int(str)` on a non-negative decimal literal; `none` on anything else. -/
def digitsToNat (l : List Char) : Option Nat :=
  l.foldl
    (fun acc c =>
      match acc, digitVal c with
      | some n, some d => some (n * 10 + d)
      | _, _ => none)
    (if l.isEmpty then none else some 0)

/-- `str.startswith(pat)` at the character-list level. -/
def leadsWith : List Char → List Char → Bool
  | [], _ => true
  | _ :: _, [] => false
  | a :: as, b :: bs => a == b && leadsWith as bs

/-- An uppercase hexadecimal digit (arguments above 15 clamp to `'F'`,
matching the use on nibbles). -/
def hexDigit (n : Nat) : Char :=
  match n with
  | 0 => '0' | 1 => '1' | 2 => '2' | 3 => '3' | 4 => '4'
  | 5 => '5' | 6 => '6' | 7 => '7' | 8 => '8' | 9 => '9'
  | 10 => 'A' | 11 => 'B' | 12 => 'C' | 13 => 'D' | 14 => 'E'
  | _ => 'F'

/-- The UTF-8 byte sequence of one code point. -/
def utf8EncodeNat (n : Nat) : List Nat :=
  if n < 0x80 then [n]
  else if n < 0x800 then [0xC0 + n / 0x40, 0x80 + n % 0x40]
  else if n < 0x10000 then
    [0xE0 + n / 0x1000, 0x80 + n / 0x40 % 0x40, 0x80 + n % 0x40]
  else
    [0xF0 + n / 0x40000, 0x80 + n / 0x1000 % 0x40, 0x80 + n / 0x40 % 0x40,
     0x80 + n % 0x40]

/-- The UTF-8 bytes of a string (`str.encode()`). -/
def utf8Bytes (s : String) : List Nat :=
  s.data.foldr (fun c acc => utf8EncodeNat c.toNat ++ acc) []

/-- `%XX` percent-escapes for a list of bytes. -/
def pctBytes (bs : List Nat) : List Char :=
  bs.foldr (fun b acc => '%' :: hexDigit (b / 16) :: hexDigit (b % 16) :: acc) []

/-- The characters `urllib.parse.quote` leaves unescaped by default: the
unreserved set plus `'/'`. -/
def isUrlSafe (c : Char) : Bool :=
  c.isAlphanum || c = '-' || c = '.' || c = '_' || c = '~' || c = '/'

/-- `urllib.parse.quote` of one character. -/
def pctEncodeChar (c : Char) : List Char :=
  if isUrlSafe c then [c] else pctBytes (utf8EncodeNat c.toNat)

/-- `urllib.parse.quote(s)`: the URL-encoded (percent-encoded) string. -/
def pctEncode (s : String) : String :=
  String.mk (s.data.foldr (fun c acc => pctEncodeChar c ++ acc) [])

/-- `urllib.parse.quote_plus(s)` (the `urlencode` quoting): spaces become
`'+'`, and only the unreserved set survives unescaped. -/
def quotePlus (s : String) : String :=
  String.mk (s.data.foldr
    (fun c acc =>
      (if c = ' ' then ['+']
       else if c.isAlphanum || c = '-' || c = '.' || c = '_' || c = '~' then [c]
       else pctBytes (utf8EncodeNat c.toNat)) ++ acc) [])

/-- Case-insensitive header lookup, as the spec requires for response
headers ("mapping of response headers (case-insensitive lookup required)"). -/
def lookupHeaderCI (headers : List (String × String)) (name : String) : Option String :=
  (headers.find? (fun kv => lowerStr kv.1 == lowerStr name)).map (fun kv => kv.2)

/-- Request-side header lookup with `""` as default, mirroring Python's
`req.headers.get(header, "")` (case-sensitive, as the original code). -/
def requestHeaderD (req : HTTPRequest) (name : String) : String :=
  (req.headers.lookup name).getD ""

/-! ## HTTP cache middleware

The middleware source (`blacksmith/middleware/_async/http_cache.py`) is not
under `src/`; only its test suite is.  The definitions below are therefore
modelled from the spec (§4.5) and checked against the expectations of
`tests/unittests/_async/test_middleware_http_cache.py`. -/

/-- A value held by the backing store: either a Vary record (the JSON array
of lowercased Vary header names) or a serialized response entry. -/
inductive CacheValue where
  | varyRec (names : List String)
  | respEntry (resp : HTTPResponse)
  deriving DecidableEq, Repr

/-- Modelled from the spec: the backing store offers `get(key) → value?` and
`set(key, value, ttl)`.  The store keeps `(ttl, value)` pairs per key; `set`
overwrites, which the association list realises by prepending (lookup finds
the most recent write first). -/
abbrev Store := List (String × (Nat × CacheValue))

def storeSet (st : Store) (key : String) (ttl : Nat) (v : CacheValue) : Store :=
  (key, (ttl, v)) :: st

def storeGet (st : Store) (key : String) : Option (Nat × CacheValue) :=
  st.lookup key

/-- `get` of a Vary record: a stored value of the wrong shape does not
deserialize to a header list and counts as absent. -/
def storeGetVary (st : Store) (key : String) : Option (List String) :=
  match storeGet st key with
  | some (_, .varyRec names) => some names
  | _ => none

/-- `get` of a response entry: a stored value of the wrong shape does not
deserialize to an `HTTPResponse` and counts as absent. -/
def storeGetResp (st : Store) (key : String) : Option HTTPResponse :=
  match storeGet st key with
  | some (_, .respEntry r) => some r
  | _ => none

/-- Modelled from the spec: the Vary record key `"{client_name}${path}"`. -/
def varyKey (client_name path : String) : String :=
  client_name ++ "$" ++ path

/-- Modelled from the spec: the variant suffix `h1=V1|h2=V2|...` joining each
Vary header as `name=value` (the request header's value, or empty string when
absent) with `"|"`. -/
def variantSuffix (req : HTTPRequest) (vary : List String) : String :=
  String.intercalate "|" (vary.map (fun h => h ++ "=" ++ requestHeaderD req h))

/-- Modelled from the spec: the response entry key
`"{client_name}${path}${h1=V1|h2=V2|...}"`. -/
def responseKey (client_name path : String) (req : HTTPRequest) (vary : List String) : String :=
  varyKey client_name path ++ "$" ++ variantSuffix req vary

/-- Modelled from the spec: the `Cache-Control` directives, split on commas
and stripped of whitespace. -/
def cacheControlDirectives (resp : HTTPResponse) : List String :=
  (splitOnChar ',' ((lookupHeaderCI resp.headers "cache-control").getD "").data).map
    (fun cs => String.mk (trimChars cs))

/-- Modelled from the spec: the `max-age` value of the response's
`Cache-Control` header, `0` when missing or unparsable. -/
def maxAgeOf (resp : HTTPResponse) : Nat :=
  match (cacheControlDirectives resp).find? (fun d => leadsWith "max-age=".data d.data) with
  | some d => (digitsToNat (d.data.drop 8)).getD 0
  | none => 0

/-- Modelled from the spec: whether the `Cache-Control` directives include
`public`. -/
def isPublicResp (resp : HTTPResponse) : Bool :=
  (cacheControlDirectives resp).contains "public"

/-- Modelled from the spec: the Vary header names of a response, split on
commas, stripped, lowercased; `[]` when the header is absent. -/
def varyHeadersOf (resp : HTTPResponse) : List String :=
  (((splitOnChar ',' ((lookupHeaderCI resp.headers "vary").getD "").data).map
    (fun cs => lowerStr (String.mk (trimChars cs)))).filter (fun h => h ≠ ""))

/-- Modelled from the spec: the default `CacheControlPolicy.handle_request`
handles GET requests. -/
def handleRequestPolicy (req : HTTPRequest) : Bool :=
  req.method == "GET"

/-- Modelled from the spec (read path): load the Vary record; if absent,
miss.  Else compute the variant key from the request headers and load the
response entry. -/
def get_from_cache (st : Store) (client_name path : String) (req : HTTPRequest) :
    Option HTTPResponse :=
  match storeGetVary st (varyKey client_name path) with
  | none => none
  | some vary => storeGetResp st (responseKey client_name path req vary)

/-- Modelled from the spec (write path): parse `Cache-Control` and `Vary`;
if `max-age` is missing or zero, or the directive is not `public`, do not
cache; otherwise write the Vary record and the response entry, both with TTL
equal to the max-age. -/
def cache_response (st : Store) (client_name path : String) (req : HTTPRequest)
    (resp : HTTPResponse) : Store :=
  let age := maxAgeOf resp
  if age = 0 ∨ isPublicResp resp = false then st
  else
    let vary := varyHeadersOf resp
    storeSet (storeSet st (varyKey client_name path) age (.varyRec vary))
      (responseKey client_name path req vary) age (.respEntry resp)

/-- Modelled from the spec: one pass of the cache middleware around `next`.
Returns the response, whether `next` was invoked, and the updated store. -/
def cacheMiddlewareHandle (st : Store) (next : HTTPRequest → HTTPResponse)
    (client_name path : String) (req : HTTPRequest) :
    HTTPResponse × Bool × Store :=
  if handleRequestPolicy req then
    match get_from_cache st client_name path req with
    | some resp => (resp, false, st)
    | none =>
      let resp := next req
      (resp, true, cache_response st client_name path req resp)
  else (next req, true, st)

/-! ## Circuit breaker middleware

`src/src/blacksmith/middleware/_async/circuit_breaker.py` supplies the
exclusion predicate and wires one breaker per `client_name`; the state
machine itself lives in the external `purgatory` dependency and is modelled
from the spec (§4.6). -/

/-- `HTTPError(message, request, response)` from `blacksmith.domain.exceptions`
(the module is not under `src/`; shape from the spec's error taxonomy and the
tests' constructions). -/
structure HTTPError where
  message : String
  request : HTTPRequest
  response : HTTPResponse
  deriving DecidableEq, Repr

/-- `HTTPError.status_code` is the response's status code. -/
def HTTPError.status_code (e : HTTPError) : Nat :=
  e.response.status_code

/-- Modelled from the spec: `is_client_error` detects HTTP status 400–499. -/
def HTTPError.is_client_error (e : HTTPError) : Bool :=
  400 ≤ e.status_code && e.status_code < 500

/-- `exclude_httpx_4xx` from `circuit_breaker.py`: "Exclude client side http
errors" — returns `exc.is_client_error`. -/
def exclude_httpx_4xx (exc : HTTPError) : Bool :=
  exc.is_client_error

/-- A Python exception value as it may reach the breaker: an `HTTPError` or
some unrelated exception type. -/
inductive PyExc where
  | httpError (e : HTTPError)
  | runtimeError (message : String)
  | valueError (message : String)
  deriving DecidableEq, Repr

/-- The failure mode of calling a Python function on a value missing the
attributes it reads. -/
inductive PyCallError where
  | attributeError
  deriving DecidableEq, Repr

/-- Calling `exclude_httpx_4xx` on an arbitrary exception value, as
`tests/unittests/test_middleware.py::test_included_list` does: the body reads
`exc.is_client_error`, an attribute only `HTTPError` instances carry, so any
other exception type raises `AttributeError`. -/
def exclude_httpx_4xx_dyncall (exc : PyExc) : Except PyCallError Bool :=
  match exc with
  | .httpError e => .ok (exclude_httpx_4xx e)
  | _ => .error .attributeError

/-- The breaker factory is built with `exclude=[(HTTPError, exclude_httpx_4xx)]`:
an exception is excluded from failure counting when it is an `HTTPError` and
the predicate holds. -/
def breakerExcluded (exc : PyExc) : Bool :=
  match exc with
  | .httpError e => exclude_httpx_4xx e
  | _ => false

/-- Modelled from the spec: the breaker state — closed, open (with the time
it opened), or half-open. -/
inductive BreakerPhase where
  | closed
  | opened (openedAt : Nat)
  | halfOpen
  deriving DecidableEq, Repr

/-- Modelled from the spec: one circuit breaker — its phase and its count of
consecutive counted failures. -/
structure Breaker where
  phase : BreakerPhase
  failures : Nat
  deriving DecidableEq, Repr

/-- What the wrapped `next` middleware would do: return a response or raise. -/
inductive NextResult where
  | ok (resp : HTTPResponse)
  | err (exc : PyExc)
  deriving DecidableEq, Repr

/-- The observable outcome of one call through the breaker. -/
inductive CallOutcome where
  | success (resp : HTTPResponse)
  | failure (exc : PyExc)
  | circuitOpen
  deriving DecidableEq, Repr

/-- Outcome, updated breaker, and whether `next` was invoked. -/
structure BreakerCallResult where
  outcome : CallOutcome
  breaker : Breaker
  nextInvoked : Bool
  deriving DecidableEq, Repr

/-- Modelled from the spec: a call proceeding in the closed state.  Success
resets the failure count; an excluded error propagates without counting; a
counted failure increments the count and opens the breaker when the
threshold is reached. -/
def breakerProceed (threshold : Nat) (b : Breaker) (now : Nat) (nr : NextResult) :
    BreakerCallResult :=
  match nr with
  | .ok r => ⟨.success r, ⟨.closed, 0⟩, true⟩
  | .err e =>
    if breakerExcluded e then ⟨.failure e, b, true⟩
    else if threshold ≤ b.failures + 1 then ⟨.failure e, ⟨.opened now, b.failures + 1⟩, true⟩
    else ⟨.failure e, ⟨.closed, b.failures + 1⟩, true⟩

/-- Modelled from the spec: the half-open probe.  Success (or an excluded
error) closes the breaker; a counted failure reopens it, restarting the TTL. -/
def breakerProbe (threshold : Nat) (now : Nat) (nr : NextResult) : BreakerCallResult :=
  match nr with
  | .ok r => ⟨.success r, ⟨.closed, 0⟩, true⟩
  | .err e =>
    if breakerExcluded e then ⟨.failure e, ⟨.closed, 0⟩, true⟩
    else ⟨.failure e, ⟨.opened now, threshold⟩, true⟩

/-- Modelled from the spec: one call through a single breaker.  While open
and within the TTL every call short-circuits with `CircuitOpenError` without
invoking `next`; after the TTL the call proceeds as the half-open probe. -/
def breakerCall (threshold ttl : Nat) (b : Breaker) (now : Nat) (nr : NextResult) :
    BreakerCallResult :=
  match b.phase with
  | .closed => breakerProceed threshold b now nr
  | .opened openedAt =>
    if now < openedAt + ttl then ⟨.circuitOpen, b, false⟩
    else breakerProbe threshold now nr
  | .halfOpen => breakerProbe threshold now nr

/-- Outcome, updated breaker table, and whether `next` was invoked. -/
structure BreakerTableResult where
  outcome : CallOutcome
  table : String → Breaker
  nextInvoked : Bool

/-- The middleware: `get_breaker(client_name)` acquires the breaker of that
client from the shared table and runs the call under it; only that client's
entry is updated. -/
def breakerTableCall (threshold ttl : Nat) (tbl : String → Breaker)
    (client_name : String) (now : Nat) (nr : NextResult) : BreakerTableResult :=
  let r := breakerCall threshold ttl (tbl client_name) now nr
  ⟨r.outcome, Function.update tbl client_name r.breaker, r.nextInvoked⟩

/-! ## Request serialization (`blacksmith/service/request_serializer.py`)

`serialize_part` and `serialize_body` are under `src/`.  Pydantic's `.dict()`
is an external collaborator; its documented `exclude_none` / `exclude_unset`
flag semantics are embedded in `pydantic_dict`.  Python dicts are observed
through `List.lookup`; only the mapping, not the iteration order, is needed
by the claims, so the `{**d1, **d2}` merge is embedded with d2-precedence
lookup semantics. -/

/-- A python simple value as it flows through the serializer (`simpletypes`
plus `None` and pydantic secret wrappers; list values and `doseq` expansion
are outside the claims modelled here). -/
inductive PyValue where
  | vnone
  | vstr (s : String)
  | vint (n : Int)
  | vbool (b : Bool)
  | vsecret (s : String)
  deriving DecidableEq, Repr

/-- `get_value`: unwrap a secret to its string form, pass anything else
through (`v.get_secret_value()` when the attribute exists, else `v`). -/
def get_value : PyValue → PyValue
  | .vsecret s => .vstr s
  | v => v

/-- One pydantic model field as `serialize_part` observes it: its wire name
(the alias when provided), its declared default (`.vnone` embeds a `None`
default), and the explicitly assigned value when the field was set. -/
structure PyField where
  key : String
  default : PyValue
  assigned : Option PyValue
  deriving DecidableEq, Repr

/-- The field's effective value: the assigned value, else the default. -/
def fieldValue (f : PyField) : PyValue :=
  f.assigned.getD f.default

/-- `req.dict(include=part, by_alias=True, exclude_none=…, exclude_unset=…,
exclude_defaults=False)`: the included fields in declaration order, dropping
unset fields under `exclude_unset` and `None`-valued fields under
`exclude_none`. -/
def pydantic_dict (excludeNone excludeUnset : Bool) (fields : List PyField) :
    List (String × PyValue) :=
  fields.filterMap (fun f =>
    if excludeUnset && f.assigned.isNone then none
    else if excludeNone && (fieldValue f == .vnone) then none
    else some (f.key, fieldValue f))

/-- Python's `{**d1, **d2}` observed through lookup: entries of `d2` win. -/
def mergeDicts {β : Type _} (d1 d2 : List (String × β)) : List (String × β) :=
  d2 ++ d1.filter (fun kv => (d2.lookup kv.1).isNone)

/-- `serialize_part(req, part)`: merge the `exclude_none=True` dict (with its
`if v is not None` filter) with the `exclude_unset=True` dict, applying
`get_value` to every value. -/
def serialize_part (fields : List PyField) : List (String × PyValue) :=
  mergeDicts
    (((pydantic_dict true false fields).filter (fun kv => kv.2 ≠ .vnone)).map
      (fun kv => (kv.1, get_value kv.2)))
    ((pydantic_dict false true fields).map (fun kv => (kv.1, get_value kv.2)))

/-! ## Request-body serializers (`blacksmith/service/request_serializer.py`) -/

/-- `str(value)` as `urlencode` sees it (secret values cannot reach the
serializers: `serialize_part` has already unwrapped them via `get_value`). -/
def pyStr : PyValue → String
  | .vnone => "None"
  | .vstr s => s
  | .vint n => toString n
  | .vbool b => if b then "True" else "False"
  | .vsecret s => s

/-- Minimal JSON string escaping (quotes and backslashes). -/
def jsonEscape (s : String) : String :=
  String.mk (s.data.foldr
    (fun c acc => if c = '"' || c = '\\' then '\\' :: c :: acc else c :: acc) [])

/-- One JSON scalar, as `json.dumps` renders it. -/
def jsonValueStr : PyValue → String
  | .vnone => "null"
  | .vstr s => "\"" ++ jsonEscape s ++ "\""
  | .vint n => toString n
  | .vbool b => if b then "true" else "false"
  | .vsecret s => "\"" ++ jsonEscape s ++ "\""

/-- `json.dumps` of the serialized part (`JsonRequestSerializer.serialize`). -/
def jsonDump (d : List (String × PyValue)) : String :=
  "\x7b" ++ String.intercalate ", "
    (d.map (fun kv => "\"" ++ jsonEscape kv.1 ++ "\": " ++ jsonValueStr kv.2)) ++ "\x7d"

/-- `urlencode(body, doseq=True)` of the serialized part
(`UrlencodedRequestSerializer.serialize`; list expansion is outside the
modelled value fragment). -/
def urlencodeDump (d : List (String × PyValue)) : String :=
  String.intercalate "&"
    (d.map (fun kv => quotePlus kv.1 ++ "=" ++ quotePlus (pyStr kv.2)))

/-- An `AbstractRequestBodySerializer`: `accept(content_type)` plus
`serialize(body)` on the extracted part. -/
structure BodySerializer where
  accepts : String → Bool
  serializes : List (String × PyValue) → String

/-- `JsonRequestSerializer`: accepts content types starting with
`application/json`. -/
def jsonRequestSerializer : BodySerializer :=
  ⟨fun ct => leadsWith "application/json".data ct.data, jsonDump⟩

/-- `UrlencodedRequestSerializer`: accepts exactly
`application/x-www-form-urlencoded`. -/
def urlencodedRequestSerializer : BodySerializer :=
  ⟨fun ct => ct == "application/x-www-form-urlencoded", urlencodeDump⟩

/-- The built-in `_SERIALIZERS` list, JSON first. -/
def SERIALIZERS : List BodySerializer :=
  [jsonRequestSerializer, urlencodedRequestSerializer]

/-- `register_request_body_serializer`: `\x7b_SERIALIZERS.insert(0, serializer)\x7d`
— prepend, so user extensions shadow built-ins. -/
def register_request_body_serializer (s : BodySerializer)
    (serializers : List BodySerializer) : List BodySerializer :=
  s :: serializers

/-- `UnregisteredContentTypeException(content_type, request)`. -/
structure UnregisteredContentTypeError where
  content_type : String
  request : List PyField
  deriving DecidableEq, Repr

/-- `serialize_body(req, body, content_type)`: empty body with no content
type serializes to the empty string; otherwise the first registered
serializer accepting the resolved content type (default `application/json`)
serializes the part, and if none accepts, `UnregisteredContentTypeException`
is raised. -/
def serialize_body (serializers : List BodySerializer) (body : List PyField)
    (content_type : Option String) : Except UnregisteredContentTypeError String :=
  if body.isEmpty && content_type.isNone then .ok ""
  else
    let ct := content_type.getD "application/json"
    match serializers.find? (fun s => s.accepts ct) with
    | some s => .ok (s.serializes (serialize_part body))
    | none => .error ⟨ct, body⟩

/-! ## Authorization middleware

The middleware module itself is not under `src/`; `httpAuthorizationHeaders`
is modelled from the spec (§4.8) and pinned by
`tests/unittests/test_middleware.py::test_authorization_header`.  The
`AsyncBasicAuthorization` helper *is* under `src/`
(`docs/source/user/middleware/authorization_basic.py`) and is embedded
line by line. -/

/-- Modelled from the spec: `HTTPAuthorization(scheme, token)` carries the
headers `Authorization: "{scheme} {token}"`. -/
def httpAuthorizationHeaders (scheme token : String) : List (String × String) :=
  [("Authorization", scheme ++ " " ++ token)]

/-- Modelled from the spec: a headers middleware updates the request's
headers with its own, overwriting any existing value
(`req.headers.update(self.headers)`). -/
def applyHeadersMiddleware (hdrs : List (String × String)) (req : HTTPRequest) :
    HTTPRequest :=
  { req with headers := mergeDicts req.headers hdrs }

/-- The standard base64 alphabet. -/
def base64Chars : List Char :=
  "ABCDEFGHIJKLMNOPQRSTUVWXYZabcdefghijklmnopqrstuvwxyz0123456789+/".data

/-- One base64 digit (0–63). -/
def base64Digit (n : Nat) : Char :=
  base64Chars.getD n 'A'

/-- Standard base64 of a byte sequence, with `=` padding. -/
def base64EncodeBytes : List Nat → List Char
  | [] => []
  | [b1] =>
    [base64Digit (b1 / 4), base64Digit (b1 % 4 * 16), '=', '=']
  | [b1, b2] =>
    [base64Digit (b1 / 4), base64Digit (b1 % 4 * 16 + b2 / 16),
     base64Digit (b2 % 16 * 4), '=']
  | b1 :: b2 :: b3 :: rest =>
    base64Digit (b1 / 4) :: base64Digit (b1 % 4 * 16 + b2 / 16) ::
      base64Digit (b2 % 16 * 4 + b3 / 64) :: base64Digit (b3 % 64) ::
      base64EncodeBytes rest

/-- `base64.b64encode(bytes).decode("ascii")`. -/
def base64Encode (bs : List Nat) : String :=
  String.mk (base64EncodeBytes bs)

/-- `AsyncBasicAuthorization(username, password)` exactly as written in
`docs/source/user/middleware/authorization_basic.py`: it builds
`userpass = f"{username}:{password}".encode()`, `b64head = b64encode(...)`,
`header = f"Basic {b64head}"`, and then calls `super().__init__("Basic",
header)` — passing the full header string as the token. -/
def basicAuthorizationHeaders (username password : String) : List (String × String) :=
  let userpass := utf8Bytes (username ++ ":" ++ password)
  let b64head := base64Encode userpass
  let header := "Basic " ++ b64head
  httpAuthorizationHeaders "Basic" header

/-! ## URL pattern resolution

`HTTPRequest.url` lives in `blacksmith/domain/model/http.py`, which is not
under `src/`; it is modelled from the spec: "after serialization, `url`
equals the URL pattern with every `{k}` substituted by the URL-encoded
string of `path[k]`; missing path placeholders cause a serialization
failure."  URL patterns are scanned left to right; `{` opens a placeholder,
the name runs to the matching `}`. -/

/-- One scan of the URL pattern: outside a placeholder (`mode = none`)
characters are copied and `{` opens a key; inside (`mode = some acc`) the key
accumulates (reversed) until `}` closes it, at which point the looked-up
path value is substituted percent-encoded.  An unterminated placeholder or a
missing path key is a failure. -/
def substGo (path : String → Option String) (mode : Option (List Char)) :
    List Char → Option (List Char)
  | [] =>
    match mode with
    | none => some []
    | some _ => none
  | c :: rest =>
    match mode with
    | none =>
      if c = '{' then substGo path (some []) rest
      else (substGo path none rest).map (fun t => c :: t)
    | some acc =>
      if c = '}' then
        match path (String.mk acc.reverse) with
        | none => none
        | some v => (substGo path none rest).map (fun t => (pctEncode v).data ++ t)
      else substGo path (some (c :: acc)) rest

/-- Modelled from the spec: resolve a URL pattern against a path mapping;
`none` is the serialization failure on a missing placeholder. -/
def substUrl (pattern : String) (path : String → Option String) : Option String :=
  (substGo path none pattern.data).map String.mk

/-- Modelled from the spec: `HTTPRequest.url` — the URL pattern with every
`{k}` substituted by the URL-encoded string of `path[k]`. -/
def HTTPRequest.url (req : HTTPRequest) : Option String :=
  substUrl req.url_pattern (fun k => req.path.lookup k)

/-- A URL pattern as the claim quantifies it: an interleaving of literal
text and `{key}` placeholders. -/
inductive Seg where
  | lit (s : String)
  | ph (key : String)
  deriving DecidableEq, Repr

/-- The character stream of a pattern built from segments. -/
def renderChars : List Seg → List Char
  | [] => []
  | .lit s :: rest => s.data ++ renderChars rest
  | .ph k :: rest => '{' :: (k.data ++ ('}' :: renderChars rest))

/-- The URL pattern built from segments. -/
def renderPattern (segs : List Seg) : String :=
  String.mk (renderChars segs)

/-- The claim's expected resolution: literals verbatim, each placeholder
replaced by the URL-encoded string of its path value. -/
def renderSubstChars (path : String → Option String) : List Seg → List Char
  | [] => []
  | .lit s :: rest => s.data ++ renderSubstChars path rest
  | .ph k :: rest => (pctEncode ((path k).getD "")).data ++ renderSubstChars path rest

/-- Well-formedness of a pattern segment: literal text carries no braces, a
placeholder key carries no closing brace. -/
def segWF : Seg → Bool
  | .lit s => s.data.all (fun c => c ≠ '{' && c ≠ '}')
  | .ph k => k.data.all (fun c => c ≠ '}')

/-- The placeholder keys `{k₁}…{kₙ}` of a pattern. -/
def phKeys (segs : List Seg) : List String :=
  segs.filterMap (fun seg =>
    match seg with
    | .ph k => some k
    | .lit _ => none)

/-! ## Factory and client middleware lists

`SyncClientFactory` / `SyncClient` are not under `src/` (only their tests
are); the list handling is modelled from the spec (§4.4): the factory holds
an ordered list, `add_middleware` prepends in place, and a `Client` copies
the factory's list at creation time.  Because the interesting content is
aliasing (copy versus share), the lists live in a small heap of locations;
factories and clients hold locations. -/

/-- The mutable world: each location holds an ordered middleware list
(middlewares are identified by name), and `fresh` is the next unused
location. -/
structure MWHeap where
  mem : Nat → List String
  fresh : Nat

/-- Modelled from the spec: `add_middleware` on a factory prepends to the
factory's own list in place. -/
def factory_add_middleware (s : MWHeap) (floc : Nat) (m : String) : MWHeap :=
  { s with mem := Function.update s.mem floc (m :: s.mem floc) }

/-- Modelled from the spec: creating a `Client` copies the factory's
middleware list at creation time into a fresh location. -/
def create_client (s : MWHeap) (floc : Nat) : Nat × MWHeap :=
  (s.fresh,
   { mem := Function.update s.mem s.fresh (s.mem floc), fresh := s.fresh + 1 })

/-- Modelled from the spec: `add_middleware` on a client prepends to that
client's own list in place. -/
def client_add_middleware (s : MWHeap) (cloc : Nat) (m : String) : MWHeap :=
  { s with mem := Function.update s.mem cloc (m :: s.mem cloc) }

/-! ## Theorems -/

/-- The response-entry key is never the Vary-record key (it is strictly
longer), so the two store entries cannot shadow each other. -/
theorem responseKey_ne_varyKey (client_name path : String) (req : HTTPRequest)
    (vary : List String) :
    responseKey client_name path req vary ≠ varyKey client_name path := by
  intro h
  have hlen := congrArg String.length h
  simp only [responseKey, String.length_append,
    show ("$" : String).length = 1 from rfl] at hlen
  omega

/-- Association-list lookup walks past an entry with a different key. -/
theorem lookup_cons_ne {β : Type _} (k a : String) (v : β) (t : List (String × β))
    (h : k ≠ a) : List.lookup k ((a, v) :: t) = List.lookup k t := by
  simp [List.lookup, beq_eq_false_iff_ne.mpr h]

/-- Association-list lookup finds the entry with the matching key. -/
theorem lookup_cons_self {β : Type _} (k : String) (v : β) (t : List (String × β)) :
    List.lookup k ((k, v) :: t) = some v := by
  simp [List.lookup]

/-- C1: For every GET request whose Vary record exists in the cache store and
whose derived variant key has a stored response entry, the HTTP cache
middleware returns the deserialized cached `HTTPResponse` without invoking
`next`; if the Vary record is absent, or the variant key has no entry, it
invokes `next` (a miss) and then applies the write path. -/
theorem http_cache_read_path (st : Store) (next : HTTPRequest → HTTPResponse)
    (client_name path : String) (req : HTTPRequest) (hm : req.method = "GET") :
    (∀ vary r, storeGetVary st (varyKey client_name path) = some vary →
        storeGetResp st (responseKey client_name path req vary) = some r →
        cacheMiddlewareHandle st next client_name path req = (r, false, st))
    ∧ (storeGetVary st (varyKey client_name path) = none →
        cacheMiddlewareHandle st next client_name path req
          = (next req, true, cache_response st client_name path req (next req)))
    ∧ (∀ vary, storeGetVary st (varyKey client_name path) = some vary →
        storeGetResp st (responseKey client_name path req vary) = none →
        cacheMiddlewareHandle st next client_name path req
          = (next req, true, cache_response st client_name path req (next req))) := by
  have hpol : handleRequestPolicy req = true := by
    simp [handleRequestPolicy, hm]
  refine ⟨?_, ?_, ?_⟩
  · intro vary r hvary hresp
    simp [cacheMiddlewareHandle, hpol, get_from_cache, hvary, hresp]
  · intro hvary
    simp [cacheMiddlewareHandle, hpol, get_from_cache, hvary]
  · intro vary hvary hresp
    simp [cacheMiddlewareHandle, hpol, get_from_cache, hvary, hresp]

/-- Witness for C1 at the scenario of the test suite: store holding the Vary
record `["x-country-code"]` and the `FR` variant returns the cached response
without touching `next`. -/
theorem http_cache_read_path_witness :
    cacheMiddlewareHandle
      [("dummies$/", (42, .varyRec ["x-country-code"])),
       ("dummies$/$x-country-code=FR",
        (42, .respEntry ⟨200, [("cache-control", "max-age=42, public"),
                               ("vary", "X-Country-Code")], "En Francais"⟩))]
      (fun _ => ⟨200, [], "from transport"⟩) "dummies" "/"
      ⟨"GET", "/", [], [], [("x-country-code", "FR")], ""⟩
    = (⟨200, [("cache-control", "max-age=42, public"),
              ("vary", "X-Country-Code")], "En Francais"⟩, false,
       [("dummies$/", (42, .varyRec ["x-country-code"])),
        ("dummies$/$x-country-code=FR",
         (42, .respEntry ⟨200, [("cache-control", "max-age=42, public"),
                                ("vary", "X-Country-Code")], "En Francais"⟩))]) :=
  (http_cache_read_path _ _ "dummies" "/" _ rfl).1
    ["x-country-code"] _ (by decide) (by decide)

/-- C2: For every response passing through the cache write path: if the
Cache-Control max-age is missing or zero, or the directive is not public,
nothing is written to the store; otherwise the middleware writes the Vary
record under key `"{client_name}${path}"` holding the lowercased Vary header
names, and the response entry under key
`"{client_name}${path}${h1=V1|h2=V2|...}"` where the suffix joins each Vary
header as `name=value` (empty value when the request header is absent) with
`"|"`, both with TTL equal to the max-age; every other key is untouched. -/
theorem http_cache_write_path (st : Store) (client_name path : String)
    (req : HTTPRequest) (resp : HTTPResponse) :
    (maxAgeOf resp = 0 ∨ isPublicResp resp = false →
      cache_response st client_name path req resp = st)
    ∧ (∀ a, maxAgeOf resp = a → 0 < a → isPublicResp resp = true →
        storeGet (cache_response st client_name path req resp)
            (client_name ++ "$" ++ path)
          = some (a, .varyRec (varyHeadersOf resp))
        ∧ storeGet (cache_response st client_name path req resp)
            (client_name ++ "$" ++ path ++ "$" ++
              String.intercalate "|" ((varyHeadersOf resp).map
                (fun h => h ++ "=" ++ requestHeaderD req h)))
          = some (a, .respEntry resp)
        ∧ ∀ k, k ≠ varyKey client_name path →
            k ≠ responseKey client_name path req (varyHeadersOf resp) →
            storeGet (cache_response st client_name path req resp) k
              = storeGet st k) := by
  constructor
  · intro h
    rcases h with h | h <;> simp [cache_response, h]
  · intro a ha hpos hpub
    subst ha
    have hne : ¬(maxAgeOf resp = 0 ∨ isPublicResp resp = false) := by
      rintro (h | h)
      · omega
      · rw [hpub] at h; exact absurd h (by decide)
    have hkey : responseKey client_name path req (varyHeadersOf resp)
        ≠ varyKey client_name path := responseKey_ne_varyKey _ _ _ _
    have hvk : varyKey client_name path = client_name ++ "$" ++ path := rfl
    have hrk : responseKey client_name path req (varyHeadersOf resp)
        = client_name ++ "$" ++ path ++ "$" ++
          String.intercalate "|" ((varyHeadersOf resp).map
            (fun h => h ++ "=" ++ requestHeaderD req h)) := rfl
    refine ⟨?_, ?_, ?_⟩
    · rw [← hvk]
      simp only [cache_response, if_neg hne, storeSet, storeGet]
      rw [lookup_cons_ne _ _ _ _ (Ne.symm hkey), lookup_cons_self]
    · rw [← hrk]
      simp only [cache_response, if_neg hne, storeSet, storeGet]
      rw [lookup_cons_self]
    · intro k hk1 hk2
      simp only [cache_response, if_neg hne, storeSet, storeGet]
      rw [lookup_cons_ne _ _ _ _ hk2, lookup_cons_ne _ _ _ _ hk1]

/-- Witness for C2 at the `Vary: X-Country-Code` scenario of the test suite:
the Vary record and the `FR` variant entry are written with TTL 42. -/
theorem http_cache_write_path_witness :
    storeGet (cache_response [] "dummies" "/"
        ⟨"GET", "/", [], [], [("x-country-code", "FR")], ""⟩
        ⟨200, [("cache-control", "max-age=42, public"),
               ("vary", "X-Country-Code")], "En Francais"⟩) "dummies$/"
      = some (42, .varyRec ["x-country-code"])
    ∧ storeGet (cache_response [] "dummies" "/"
        ⟨"GET", "/", [], [], [("x-country-code", "FR")], ""⟩
        ⟨200, [("cache-control", "max-age=42, public"),
               ("vary", "X-Country-Code")], "En Francais"⟩) "dummies$/$x-country-code=FR"
      = some (42, .respEntry ⟨200, [("cache-control", "max-age=42, public"),
                                    ("vary", "X-Country-Code")], "En Francais"⟩) := by
  have h := (http_cache_write_path [] "dummies" "/"
      ⟨"GET", "/", [], [], [("x-country-code", "FR")], ""⟩
      ⟨200, [("cache-control", "max-age=42, public"),
             ("vary", "X-Country-Code")], "En Francais"⟩).2
    42 (by decide) (by decide) (by decide)
  exact ⟨h.1, h.2.1⟩

/-- A call proceeding in the closed state always invokes `next` and never
short-circuits. -/
theorem breakerProceed_invokes (threshold : Nat) (b : Breaker) (now : Nat)
    (nr : NextResult) :
    (breakerProceed threshold b now nr).nextInvoked = true
    ∧ (breakerProceed threshold b now nr).outcome ≠ .circuitOpen := by
  cases nr with
  | ok r => simp [breakerProceed]
  | err e =>
    simp only [breakerProceed]
    split
    · simp
    · split <;> simp

/-- C3: While the circuit breaker for a given `client_name` is in the open
state, every call through the breaker middleware for that client raises
`CircuitOpenError` and `next` is never invoked (and the breaker table is left
unchanged); calls for other client names are unaffected: their table entries
are untouched, and a call for another client whose own breaker is closed
still invokes `next` and does not short-circuit. -/
theorem circuit_breaker_open_short_circuits (threshold ttl : Nat)
    (tbl : String → Breaker) (client_name : String) (now openedAt : Nat)
    (nr : NextResult) (hopen : (tbl client_name).phase = .opened openedAt)
    (hfresh : now < openedAt + ttl) :
    (breakerTableCall threshold ttl tbl client_name now nr).outcome = .circuitOpen
    ∧ (breakerTableCall threshold ttl tbl client_name now nr).nextInvoked = false
    ∧ (∀ c, (breakerTableCall threshold ttl tbl client_name now nr).table c = tbl c)
    ∧ (∀ c, c ≠ client_name → (tbl c).phase = .closed →
        (breakerTableCall threshold ttl tbl c now nr).nextInvoked = true
        ∧ (breakerTableCall threshold ttl tbl c now nr).outcome ≠ .circuitOpen) := by
  have hcall : breakerCall threshold ttl (tbl client_name) now nr
      = ⟨.circuitOpen, tbl client_name, false⟩ := by
    simp [breakerCall, hopen, if_pos hfresh]
  refine ⟨?_, ?_, ?_, ?_⟩
  · simp [breakerTableCall, hcall]
  · simp [breakerTableCall, hcall]
  · intro c
    simp only [breakerTableCall, hcall, Function.update_apply]
    split
    · next h => rw [h]
    · rfl
  · intro c _ hclosed
    constructor
    · simp [breakerTableCall, breakerCall, hclosed,
        (breakerProceed_invokes threshold (tbl c) now nr).1]
    · simp [breakerTableCall, breakerCall, hclosed]
      exact (breakerProceed_invokes threshold (tbl c) now nr).2

/-- Witness for C3: a table with the `dummy` breaker open at time 0 and TTL
30 short-circuits a call at time 10 without invoking `next`, while `other`
still goes through. -/
theorem circuit_breaker_open_short_circuits_witness :
    (breakerTableCall 2 30
        (fun c => if c = "dummy" then ⟨.opened 0, 2⟩ else ⟨.closed, 0⟩)
        "dummy" 10 (.ok ⟨200, [], ""⟩)).outcome = .circuitOpen
    ∧ (breakerTableCall 2 30
        (fun c => if c = "dummy" then ⟨.opened 0, 2⟩ else ⟨.closed, 0⟩)
        "dummy" 10 (.ok ⟨200, [], ""⟩)).nextInvoked = false
    ∧ (breakerTableCall 2 30
        (fun c => if c = "dummy" then ⟨.opened 0, 2⟩ else ⟨.closed, 0⟩)
        "other" 10 (.ok ⟨200, [], ""⟩)).nextInvoked = true := by
  have h := circuit_breaker_open_short_circuits 2 30
    (fun c => if c = "dummy" then ⟨.opened 0, 2⟩ else ⟨.closed, 0⟩)
    "dummy" 10 0 (.ok ⟨200, [], ""⟩) (by decide) (by decide)
  exact ⟨h.1, h.2.1, (h.2.2.2 "other" (by decide) (by decide)).1⟩

/-- C4: For every `HTTPError` with status code in 400–499 the circuit
breaker's exclusion predicate returns true and the failure is not counted
toward the breaker threshold, so any number of consecutive 4xx responses
leaves a closed breaker exactly as it was; errors with status 500 or above
are not excluded and are counted (the failure count increments). -/
theorem circuit_breaker_4xx_not_counted (threshold ttl now : Nat) :
    (∀ e : HTTPError, 400 ≤ e.status_code → e.status_code < 500 →
      exclude_httpx_4xx e = true)
    ∧ (∀ e : HTTPError, 500 ≤ e.status_code → exclude_httpx_4xx e = false)
    ∧ (∀ es : List HTTPError,
        (∀ e ∈ es, 400 ≤ e.status_code ∧ e.status_code < 500) →
        ∀ b : Breaker, b.phase = .closed →
          es.foldl
            (fun st e => (breakerCall threshold ttl st now (.err (.httpError e))).breaker)
            b = b)
    ∧ (∀ e : HTTPError, 500 ≤ e.status_code → ∀ b : Breaker, b.phase = .closed →
        ((breakerCall threshold ttl b now (.err (.httpError e))).breaker).failures
          = b.failures + 1) := by
  refine ⟨?_, ?_, ?_, ?_⟩
  · intro e h1 h2
    simp only [exclude_httpx_4xx, HTTPError.is_client_error, Bool.and_eq_true,
      decide_eq_true_eq]
    omega
  · intro e h1
    simp only [exclude_httpx_4xx, HTTPError.is_client_error]
    simp only [Bool.and_eq_false_iff, decide_eq_false_iff_not]
    omega
  · intro es
    induction es with
    | nil => intro _ b _; rfl
    | cons e rest ih =>
      intro hes b hb
      have h4 := hes e (by simp)
      have hx : breakerExcluded (.httpError e) = true := by
        simp only [breakerExcluded, exclude_httpx_4xx, HTTPError.is_client_error,
          Bool.and_eq_true, decide_eq_true_eq]
        omega
      have hstep : (breakerCall threshold ttl b now (.err (.httpError e))).breaker = b := by
        simp [breakerCall, hb, breakerProceed, hx]
      rw [List.foldl_cons, hstep]
      exact ih (fun e' he' => hes e' (by simp [he'])) b hb
  · intro e h5 b hb
    have hx : breakerExcluded (.httpError e) = false := by
      simp only [breakerExcluded, exclude_httpx_4xx, HTTPError.is_client_error]
      simp only [Bool.and_eq_false_iff, decide_eq_false_iff_not]
      omega
    by_cases hth : threshold ≤ b.failures + 1 <;>
      simp [breakerCall, hb, breakerProceed, hx, hth]

/-- Witness for C4: two 422 errors leave a fresh closed breaker closed with
zero failures; a 500 error increments the failure count. -/
theorem circuit_breaker_4xx_not_counted_witness :
    exclude_httpx_4xx ⟨"Mmm", ⟨"GET", "/", [], [], [], ""⟩, ⟨422, [], ""⟩⟩ = true
    ∧ [(⟨"Mmm", ⟨"GET", "/", [], [], [], ""⟩, ⟨422, [], ""⟩⟩ : HTTPError),
       ⟨"Mmm", ⟨"GET", "/", [], [], [], ""⟩, ⟨422, [], ""⟩⟩].foldl
        (fun st e => (breakerCall 2 30 st 0 (.err (.httpError e))).breaker)
        ⟨.closed, 0⟩ = ⟨.closed, 0⟩
    ∧ ((breakerCall 2 30 ⟨.closed, 0⟩ 0
        (.err (.httpError ⟨"Boom", ⟨"GET", "/", [], [], [], ""⟩, ⟨500, [], ""⟩⟩))).breaker).failures
        = 0 + 1 := by
  have h := circuit_breaker_4xx_not_counted 2 30 0
  exact ⟨h.1 _ (by decide) (by decide),
    h.2.2.1 _ (by decide) _ rfl,
    h.2.2.2 _ (by decide) _ rfl⟩

/-- C10 (counterexample evidence): `exclude_httpx_4xx` as written in
`circuit_breaker.py` reads `exc.is_client_error` unconditionally, so calling
it on a `RuntimeError` or `ValueError` — as
`tests/unittests/test_middleware.py::test_included_list` does, expecting
`False` — raises `AttributeError` instead of returning `False`. -/
theorem exclude_httpx_4xx_raises_on_foreign_exc :
    exclude_httpx_4xx_dyncall (.runtimeError "Boom") = .error .attributeError
    ∧ exclude_httpx_4xx_dyncall (.valueError "Boom") = .error .attributeError
    ∧ breakerExcluded (.runtimeError "Boom") = false :=
  ⟨rfl, rfl, rfl⟩

/-- Lookup distributes over list append, preferring the left list. -/
theorem lookup_append {β : Type _} (k : String) (l1 l2 : List (String × β)) :
    (l1 ++ l2).lookup k =
      match l1.lookup k with
      | some v => some v
      | none => l2.lookup k := by
  induction l1 with
  | nil => simp
  | cons p t ih =>
    by_cases h : k = p.1
    · subst h
      rw [show p = (p.1, p.2) from rfl, List.cons_append, lookup_cons_self,
        lookup_cons_self]
    · rw [show p = (p.1, p.2) from rfl, List.cons_append,
        lookup_cons_ne _ _ _ _ h, lookup_cons_ne _ _ _ _ h, ih]

/-- Lookup commutes with mapping over values. -/
theorem lookup_map_value {β γ : Type _} (h : β → γ) (l : List (String × β)) (k : String) :
    (l.map (fun kv => (kv.1, h kv.2))).lookup k = (l.lookup k).map h := by
  induction l with
  | nil => simp
  | cons p t ih =>
    by_cases hk : k = p.1
    · subst hk
      rw [show p = (p.1, p.2) from rfl, List.map_cons, lookup_cons_self,
        lookup_cons_self]
      rfl
    · rw [show p = (p.1, p.2) from rfl, List.map_cons, lookup_cons_ne _ _ _ _ hk,
        lookup_cons_ne _ _ _ _ hk, ih]

/-- Lookup through a filter whose predicate only reads the key. -/
theorem lookup_filter_key {β : Type _} (q : String → Bool) (l : List (String × β))
    (k : String) :
    (l.filter (fun kv => q kv.1)).lookup k = if q k then l.lookup k else none := by
  induction l with
  | nil => simp
  | cons p t ih =>
    rw [show p = (p.1, p.2) from rfl]
    by_cases hq : q p.1
    · rw [List.filter_cons_of_pos (by simpa using hq)]
      by_cases hk : k = p.1
      · subst hk
        rw [lookup_cons_self, lookup_cons_self, if_pos hq]
      · rw [lookup_cons_ne _ _ _ _ hk, lookup_cons_ne _ _ _ _ hk, ih]
    · rw [List.filter_cons_of_neg (by simpa using hq)]
      by_cases hk : k = p.1
      · subst hk
        rw [if_neg hq, ih, if_neg hq]
      · rw [lookup_cons_ne _ _ _ _ hk, ih]

/-- Lookup misses when the key is not among the first components. -/
theorem lookup_none_of_key_not_mem {β : Type _} {k : String}
    {l : List (String × β)} (h : k ∉ l.map Prod.fst) : l.lookup k = none := by
  induction l with
  | nil => rfl
  | cons p t ih =>
    simp only [List.map_cons, List.mem_cons, not_or] at h
    rw [show p = (p.1, p.2) from rfl, lookup_cons_ne _ _ _ _ h.1]
    exact ih h.2

/-- The merged dict resolves a key from `d2` first, then from `d1`. -/
theorem mergeDicts_lookup {β : Type _} (d1 d2 : List (String × β)) (k : String) :
    (mergeDicts d1 d2).lookup k =
      match d2.lookup k with
      | some v => some v
      | none => d1.lookup k := by
  rw [mergeDicts, lookup_append]
  cases h : d2.lookup k with
  | some v => rfl
  | none =>
    rw [lookup_filter_key (fun s => (d2.lookup s).isNone), if_pos (by simp [h])]

/-- Every value surviving `exclude_none=True` is not `None`. -/
theorem pydantic_dict_true_ne_vnone (eu : Bool) (fields : List PyField) :
    ∀ kv ∈ pydantic_dict true eu fields, kv.2 ≠ .vnone := by
  intro kv hkv
  simp only [pydantic_dict, List.mem_filterMap] at hkv
  obtain ⟨f, _, hf⟩ := hkv
  split at hf
  · exact absurd hf (by simp)
  · split at hf
    · exact absurd hf (by simp)
    · next h2 =>
      cases hf
      simp only [Bool.true_and, beq_iff_eq] at h2
      simpa using h2

/-- The keys produced by `pydantic_dict` form a sublist of the field keys. -/
theorem pydantic_dict_keys_sublist (en eu : Bool) (fields : List PyField) :
    ((pydantic_dict en eu fields).map Prod.fst).Sublist (fields.map PyField.key) := by
  induction fields with
  | nil => simp [pydantic_dict]
  | cons f t ih =>
    simp only [pydantic_dict, List.filterMap_cons, List.map_cons] at *
    split
    · exact ih.cons _
    · next b heq =>
      have hb : b.1 = f.key := by
        split at heq
        · cases heq
        · split at heq
          · cases heq
          · cases heq; rfl
      rw [List.map_cons, hb]
      exact ih.cons₂ f.key

/-- What `pydantic_dict` holds at the key of an included field, assuming the
model's field keys are distinct (as pydantic guarantees). -/
theorem pydantic_dict_lookup (en eu : Bool) (fields : List PyField) (f : PyField)
    (hmem : f ∈ fields) (hnd : (fields.map PyField.key).Nodup) :
    (pydantic_dict en eu fields).lookup f.key =
      if eu && f.assigned.isNone then none
      else if en && (fieldValue f == .vnone) then none
      else some (fieldValue f) := by
  induction fields with
  | nil => cases hmem
  | cons g t ih =>
    simp only [List.map_cons, List.nodup_cons] at hnd
    rcases List.mem_cons.mp hmem with rfl | hmem'
    · have habsent : (pydantic_dict en eu t).lookup f.key = none :=
        lookup_none_of_key_not_mem (fun hk =>
          hnd.1 ((pydantic_dict_keys_sublist en eu t).mem hk))
      simp only [pydantic_dict, List.filterMap_cons]
      split
      · next h0 =>
        split at h0
        · next c1 => rw [if_pos c1]; exact habsent
        · next c1 =>
          split at h0
          · next c2 => rw [if_neg c1, if_pos c2]; exact habsent
          · cases h0
      · next b h0 =>
        split at h0
        · cases h0
        · next c1 =>
          split at h0
          · cases h0
          · next c2 =>
            cases h0
            rw [lookup_cons_self, if_neg c1, if_neg c2]
    · have hfk : f.key ≠ g.key := by
        intro he
        exact hnd.1 (he ▸ List.mem_map_of_mem PyField.key hmem')
      simp only [pydantic_dict, List.filterMap_cons]
      split
      · exact ih hmem' hnd.2
      · next b h0 =>
        have hb1 : b.1 = g.key := by
          split at h0
          · cases h0
          · split at h0
            · cases h0
            · cases h0; rfl
        rw [show b = (b.1, b.2) from rfl, hb1, lookup_cons_ne _ _ _ _ hfk]
        exact ih hmem' hnd.2

/-- What `serialize_part` holds at the key of an included field: an assigned
value is present (secret-unwrapped), an unassigned field falls back to its
default unless that default is `None`. -/
theorem serialize_part_lookup (fields : List PyField) (f : PyField)
    (hmem : f ∈ fields) (hnd : (fields.map PyField.key).Nodup) :
    (serialize_part fields).lookup f.key =
      if f.assigned.isSome then some (get_value (fieldValue f))
      else if fieldValue f == .vnone then none
      else some (get_value (fieldValue f)) := by
  have hfilter : (pydantic_dict true false fields).filter (fun kv => kv.2 ≠ .vnone)
      = pydantic_dict true false fields :=
    List.filter_eq_self.mpr (fun kv hkv => by
      simpa using pydantic_dict_true_ne_vnone false fields kv hkv)
  have h1 := pydantic_dict_lookup true false fields f hmem hnd
  have h2 := pydantic_dict_lookup false true fields f hmem hnd
  simp only [Bool.false_and, Bool.true_and, Bool.and_false, Bool.and_true,
    if_false, Bool.false_eq_true] at h1 h2
  rw [serialize_part, mergeDicts_lookup, hfilter, lookup_map_value,
    lookup_map_value, h1, h2]
  cases ha : f.assigned with
  | some v =>
    simp [ha, fieldValue]
  | none =>
    simp only [ha, Option.isNone_none, if_true, Option.map_none, Option.isSome_none,
      Bool.false_eq_true, if_false]
    by_cases hv : fieldValue f = .vnone
    · rw [if_pos (by simpa using hv), if_pos (by simpa using hv)]
      rfl
    · rw [if_neg (by simpa using hv), if_neg (by simpa using hv)]
      rfl

/-- C6: For every `Request` instance, `serialize_part` includes a field
explicitly set to `None` with an empty (`None`) value in the serialized part,
omits an `Optional` field that was left unset with a `None` default, and
includes the non-`None` default of a field that was not explicitly set. -/
theorem serialize_part_none_handling (fields : List PyField) (f : PyField)
    (hmem : f ∈ fields) (hnd : (fields.map PyField.key).Nodup) :
    (f.assigned = some .vnone →
      (serialize_part fields).lookup f.key = some .vnone)
    ∧ (f.assigned = none → f.default = .vnone →
      (serialize_part fields).lookup f.key = none)
    ∧ (f.assigned = none → f.default ≠ .vnone →
      (serialize_part fields).lookup f.key = some (get_value f.default)) := by
  have h := serialize_part_lookup fields f hmem hnd
  refine ⟨?_, ?_, ?_⟩
  · intro ha
    rw [h, if_pos (by simp [ha])]
    simp [fieldValue, ha, get_value]
  · intro ha hd
    rw [h, if_neg (by simp [ha]), if_pos (by simp [fieldValue, ha, hd])]
  · intro ha hd
    rw [h, if_neg (by simp [ha]), if_neg (by simp [fieldValue, ha, hd])]
    simp [fieldValue, ha]

/-- Witness for C6 at the shape of
`test_serialize_part_default_with_none` / `test_serialize_part`: `age` was
explicitly set to `None` and stays with a `None` value, `city` (unset,
default `None`) is omitted, `country` (unset, default `"FR"`) keeps its
default. -/
theorem serialize_part_none_handling_witness :
    (serialize_part
        [⟨"name", .vnone, some (.vstr "Jane")⟩, ⟨"age", .vint 10, some .vnone⟩,
         ⟨"city", .vnone, none⟩, ⟨"country", .vstr "FR", none⟩]).lookup "age"
      = some .vnone
    ∧ (serialize_part
        [⟨"name", .vnone, some (.vstr "Jane")⟩, ⟨"age", .vint 10, some .vnone⟩,
         ⟨"city", .vnone, none⟩, ⟨"country", .vstr "FR", none⟩]).lookup "city"
      = none
    ∧ (serialize_part
        [⟨"name", .vnone, some (.vstr "Jane")⟩, ⟨"age", .vint 10, some .vnone⟩,
         ⟨"city", .vnone, none⟩, ⟨"country", .vstr "FR", none⟩]).lookup "country"
      = some (.vstr "FR") :=
  ⟨((serialize_part_none_handling _ ⟨"age", .vint 10, some .vnone⟩
      (by decide) (by decide)).1 rfl),
   ((serialize_part_none_handling _ ⟨"city", .vnone, none⟩
      (by decide) (by decide)).2.1 rfl rfl),
   ((serialize_part_none_handling _ ⟨"country", .vstr "FR", none⟩
      (by decide) (by decide)).2.2 rfl (by decide))⟩

/-- C7: `serialize_body` returns the empty string when the body part is empty
and no Content-Type header is set, and raises
`UnregisteredContentTypeError(ct, req)` if and only if no registered
serializer accepts the resolved content type (defaulting to
`application/json`); serializers are consulted in list order, and registering
a serializer prepends it, so the most recently registered accepting
serializer wins. -/
theorem serialize_body_dispatch (serializers : List BodySerializer)
    (body : List PyField) (content_type : Option String) :
    (body = [] → content_type = none →
      serialize_body serializers body content_type = .ok "")
    ∧ (∀ e, serialize_body serializers body content_type = .error e ↔
        (¬(body = [] ∧ content_type = none)
         ∧ e = ⟨content_type.getD "application/json", body⟩
         ∧ ∀ s ∈ serializers,
             s.accepts (content_type.getD "application/json") = false))
    ∧ (∀ s, s.accepts (content_type.getD "application/json") = true →
        ¬(body = [] ∧ content_type = none) →
        serialize_body (register_request_body_serializer s serializers) body
            content_type
          = .ok (s.serializes (serialize_part body))) := by
  refine ⟨?_, ?_, ?_⟩
  · intro hb hc
    subst hb; subst hc
    rfl
  · intro e
    by_cases hsp : body = [] ∧ content_type = none
    · obtain ⟨hb, hc⟩ := hsp
      subst hb; subst hc
      constructor
      · intro h; cases h
      · rintro ⟨hne, -, -⟩
        exact absurd ⟨rfl, rfl⟩ hne
    · have hcond : (body.isEmpty && content_type.isNone) = false := by
        rcases body with _ | ⟨f, t⟩
        · rcases content_type with _ | ct
          · exact absurd ⟨rfl, rfl⟩ hsp
          · rfl
        · rfl
      rw [serialize_body, hcond]
      simp only [Bool.false_eq_true, if_false]
      cases hfind : serializers.find?
          (fun s => s.accepts (content_type.getD "application/json")) with
      | some s =>
        constructor
        · intro h; cases h
        · rintro ⟨-, -, hall⟩
          have hmem := List.mem_of_find?_eq_some hfind
          have hacc := List.find?_some hfind
          rw [hall s hmem] at hacc
          cases hacc
      | none =>
        constructor
        · intro h
          cases h
          refine ⟨hsp, rfl, fun s hs => ?_⟩
          have := List.find?_eq_none.mp hfind s hs
          simpa using this
        · rintro ⟨-, he, -⟩
          rw [he]
  · intro s hacc hsp
    have hcond : (body.isEmpty && content_type.isNone) = false := by
      rcases body with _ | ⟨f, t⟩
      · rcases content_type with _ | ct
        · exact absurd ⟨rfl, rfl⟩ hsp
        · rfl
      · rfl
    rw [serialize_body, hcond]
    simp only [Bool.false_eq_true, if_false, register_request_body_serializer,
      List.find?]
    rw [hacc]

/-- Witness for C7: the default serializer list returns `""` on an empty
body without content type, raises on `text/xml`, and a freshly registered
`text/xml` serializer shadows the built-ins. -/
theorem serialize_body_dispatch_witness :
    serialize_body SERIALIZERS [] none = .ok ""
    ∧ serialize_body SERIALIZERS [⟨"name", .vnone, some (.vstr "Jane")⟩]
        (some "text/xml")
      = .error ⟨"text/xml", [⟨"name", .vnone, some (.vstr "Jane")⟩]⟩
    ∧ serialize_body
        (register_request_body_serializer
          ⟨fun ct => ct == "text/xml", fun _ => "<xml/>"⟩ SERIALIZERS)
        [⟨"name", .vnone, some (.vstr "Jane")⟩] (some "text/xml")
      = .ok "<xml/>" := by
  refine ⟨(serialize_body_dispatch SERIALIZERS [] none).1 rfl rfl, ?_, ?_⟩
  · exact ((serialize_body_dispatch SERIALIZERS
      [⟨"name", .vnone, some (.vstr "Jane")⟩] (some "text/xml")).2.1 _).mpr
      ⟨by simp, rfl, by decide⟩
  · exact (serialize_body_dispatch SERIALIZERS
      [⟨"name", .vnone, some (.vstr "Jane")⟩] (some "text/xml")).2.2
      ⟨fun ct => ct == "text/xml", fun _ => "<xml/>"⟩ (by decide) (by simp)

/-- C8 (divergence evidence): `HTTPAuthorization` does set the
`Authorization` header to `"{scheme} {token}"`, overwriting an existing
value — but the docs' `AsyncBasicAuthorization` helper passes
`"Basic {b64}"` as the *token* on top of the `"Basic"` scheme, so the
produced header value is `"Basic Basic <base64>"` rather than `"Basic "`
followed by exactly the base64 of `"username:password"`. -/
theorem basic_authorization_doubles_scheme :
    httpAuthorizationHeaders "Bearer" "abc" = [("Authorization", "Bearer abc")]
    ∧ (applyHeadersMiddleware (httpAuthorizationHeaders "Bearer" "abc")
        ⟨"GET", "/", [], [], [("Authorization", "Bearer old"), ("X-Req-Id", "42")],
         ""⟩).headers.lookup "Authorization" = some "Bearer abc"
    ∧ base64Encode (utf8Bytes ("alice" ++ ":" ++ "secret")) = "YWxpY2U6c2VjcmV0"
    ∧ basicAuthorizationHeaders "alice" "secret"
        = [("Authorization", "Basic Basic YWxpY2U6c2VjcmV0")]
    ∧ basicAuthorizationHeaders "alice" "secret"
        ≠ [("Authorization", "Basic YWxpY2U6c2VjcmV0")] := by
  refine ⟨rfl, by decide, by decide, by decide, by decide⟩

/-- `hexDigit` never emits a brace. -/
theorem hexDigit_ne_braces (n : Nat) : hexDigit n ≠ '{' ∧ hexDigit n ≠ '}' := by
  unfold hexDigit
  split <;> exact ⟨by decide, by decide⟩

/-- `pctBytes` never emits a brace. -/
theorem pctBytes_ne_braces (bs : List Nat) :
    ∀ d ∈ pctBytes bs, d ≠ '{' ∧ d ≠ '}' := by
  induction bs with
  | nil => intro d hd; simp [pctBytes] at hd
  | cons b t ih =>
    intro d hd
    simp only [pctBytes, List.foldr_cons, List.mem_cons] at hd
    rcases hd with rfl | rfl | rfl | hd
    · exact ⟨by decide, by decide⟩
    · exact hexDigit_ne_braces _
    · exact hexDigit_ne_braces _
    · exact ih d (by simpa [pctBytes] using hd)

/-- `pctEncodeChar` never emits a brace. -/
theorem pctEncodeChar_ne_braces (c : Char) :
    ∀ d ∈ pctEncodeChar c, d ≠ '{' ∧ d ≠ '}' := by
  intro d hd
  unfold pctEncodeChar at hd
  split at hd
  · next hsafe =>
    simp only [List.mem_singleton] at hd
    subst hd
    constructor <;> rintro rfl <;> exact absurd hsafe (by decide)
  · exact pctBytes_ne_braces _ d hd

/-- `pctEncode` never emits a brace. -/
theorem pctEncode_ne_braces (s : String) :
    ∀ d ∈ (pctEncode s).data, d ≠ '{' ∧ d ≠ '}' := by
  show ∀ d ∈ s.data.foldr (fun c acc => pctEncodeChar c ++ acc) [], _
  induction s.data with
  | nil => intro d hd; simp at hd
  | cons c t ih =>
    intro d hd
    simp only [List.foldr_cons] at hd
    rcases List.mem_append.mp hd with hd | hd
    · exact pctEncodeChar_ne_braces c d hd
    · exact ih d hd

/-- Scanning a brace-free key up to its closing `}` resolves the key and
substitutes its value. -/
theorem substGo_key (path : String → Option String) (key : List Char)
    (h : ∀ c ∈ key, c ≠ '}') (acc l : List Char) :
    substGo path (some acc) (key ++ '}' :: l) =
      match path (String.mk (acc.reverse ++ key)) with
      | none => none
      | some v => (substGo path none l).map (fun t => (pctEncode v).data ++ t) := by
  induction key generalizing acc with
  | nil =>
    simp [substGo]
  | cons d key ih =>
    have hd : d ≠ '}' := h d (by simp)
    rw [List.cons_append]
    simp only [substGo, if_neg hd]
    rw [ih (fun c hc => h c (by simp [hc])) (d :: acc)]
    simp only [List.reverse_cons, List.append_assoc, List.singleton_append]

/-- Scanning a literal character copies it. -/
theorem substGo_lit (path : String → Option String) (c : Char) (l : List Char)
    (hc : c ≠ '{') :
    substGo path none (c :: l) = (substGo path none l).map (fun t => c :: t) := by
  simp only [substGo, if_neg hc]

/-- Scanning a literal run copies it. -/
theorem substGo_lits (path : String → Option String) (ls : List Char)
    (hl : ∀ c ∈ ls, c ≠ '{') (l : List Char) :
    substGo path none (ls ++ l) = (substGo path none l).map (fun t => ls ++ t) := by
  induction ls with
  | nil =>
    cases h : substGo path none l <;> simp [h]
  | cons c cs ih =>
    rw [List.cons_append, substGo_lit path c _ (hl c (by simp)),
      ih (fun d hd => hl d (by simp [hd]))]
    cases h : substGo path none l <;> simp [h]

/-- Scanning a placeholder resolves the key and substitutes the value. -/
theorem substGo_ph (path : String → Option String) (key : List Char)
    (h : ∀ c ∈ key, c ≠ '}') (l : List Char) :
    substGo path none ('{' :: (key ++ '}' :: l)) =
      match path (String.mk key) with
      | none => none
      | some v => (substGo path none l).map (fun t => (pctEncode v).data ++ t) := by
  simp only [substGo, if_pos rfl]
  rw [substGo_key path key h [] l]
  rfl

/-- The scan of a well-formed pattern with all placeholder keys present
resolves to the claim's expected substitution. -/
theorem substGo_render (path : String → Option String) (segs : List Seg)
    (hwf : ∀ seg ∈ segs, segWF seg = true)
    (hkeys : ∀ k ∈ phKeys segs, (path k).isSome) :
    substGo path none (renderChars segs) = some (renderSubstChars path segs) := by
  induction segs with
  | nil => rfl
  | cons seg rest ih =>
    have hkrest : ∀ k ∈ phKeys rest, (path k).isSome := by
      intro k hk
      cases seg with
      | lit s =>
        apply hkeys
        simpa [phKeys, List.filterMap_cons] using hk
      | ph k2 =>
        apply hkeys
        simp only [phKeys, List.filterMap_cons]
        exact List.mem_cons_of_mem _ hk
    have ihr := ih (fun s hs => hwf s (List.mem_cons_of_mem _ hs)) hkrest
    cases seg with
    | lit s =>
      have hlit : ∀ c ∈ s.data, c ≠ '{' := by
        have := hwf (.lit s) (by simp)
        simp only [segWF, List.all_eq_true, Bool.and_eq_true, decide_eq_true_eq] at this
        exact fun c hc => (this c hc).1
      simp only [renderChars, renderSubstChars]
      rw [substGo_lits path s.data hlit, ihr]
      rfl
    | ph k =>
      have hk : ∀ c ∈ k.data, c ≠ '}' := by
        have := hwf (.ph k) (by simp)
        simp only [segWF, List.all_eq_true, decide_eq_true_eq] at this
        exact this
      have hsome : (path k).isSome := hkeys k (by simp [phKeys])
      obtain ⟨v, hv⟩ := Option.isSome_iff_exists.mp hsome
      simp only [renderChars, renderSubstChars]
      rw [substGo_ph path k.data hk (renderChars rest),
        show String.mk k.data = k from rfl, hv, ihr]
      simp [hv]

/-- The expected substitution of a well-formed pattern contains no braces. -/
theorem renderSubstChars_no_braces (path : String → Option String) (segs : List Seg)
    (hwf : ∀ seg ∈ segs, segWF seg = true) :
    ∀ c ∈ renderSubstChars path segs, c ≠ '{' ∧ c ≠ '}' := by
  induction segs with
  | nil => intro c hc; cases hc
  | cons seg rest ih =>
    have ihr := ih (fun s hs => hwf s (by simp [hs]))
    intro c hc
    cases seg with
    | lit s =>
      rcases List.mem_append.mp hc with hc | hc
      · have := hwf (.lit s) (by simp)
        simp only [segWF, List.all_eq_true, Bool.and_eq_true, decide_eq_true_eq] at this
        exact this c hc
      · exact ihr c hc
    | ph k =>
      rcases List.mem_append.mp hc with hc | hc
      · exact pctEncode_ne_braces _ c hc
      · exact ihr c hc

/-- C5: For every `HTTPRequest` whose URL pattern is an interleaving of
brace-free literals and placeholders `{k₁}…{kₙ}` and whose path mapping
contains all those keys, the resolved url equals the pattern with each `{k}`
replaced by the URL-encoded (percent-encoded) string of `path[k]`, and the
resolved URL contains no brace characters (hence no remaining `{…}`
substrings). -/
theorem request_url_resolution (segs : List Seg) (pm : List (String × String))
    (hwf : ∀ seg ∈ segs, segWF seg = true)
    (hkeys : ∀ k ∈ phKeys segs, (pm.lookup k).isSome) :
    HTTPRequest.url ⟨"GET", renderPattern segs, pm, [], [], ""⟩
      = some (String.mk (renderSubstChars (fun k => pm.lookup k) segs))
    ∧ ∀ c ∈ renderSubstChars (fun k => pm.lookup k) segs, c ≠ '{' ∧ c ≠ '}' := by
  constructor
  · show (substGo (fun k => pm.lookup k) none (renderPattern segs).data).map String.mk
      = _
    rw [show (renderPattern segs).data = renderChars segs from rfl,
      substGo_render (fun k => pm.lookup k) segs hwf hkeys]
    rfl
  · exact renderSubstChars_no_braces (fun k => pm.lookup k) segs hwf

/-- Witness for C5 at the pattern of `test_request_url`:
`/foo/\x7bname\x7d/bar/\x7bid\x7d` with `name=John`, `id=42` resolves to
`/foo/John/bar/42`. -/
theorem request_url_resolution_witness :
    HTTPRequest.url
      ⟨"GET",
       renderPattern [.lit "/foo/", .ph "name", .lit "/bar/", .ph "id"],
       [("id", "42"), ("name", "John")], [], [], ""⟩
      = some "/foo/John/bar/42" :=
  (request_url_resolution [.lit "/foo/", .ph "name", .lit "/bar/", .ph "id"]
    [("id", "42"), ("name", "John")] (by decide) (by decide)).1

/-- C9: After a `Client` has been created by the factory, the client holds a
snapshot of the factory's list taken at creation time; `add_middleware` on
the factory changes only the factory's list (the list of the previously
created client — and of every other live location — is unchanged), and
adding a middleware to the client changes only that client's list. -/
theorem client_middleware_snapshot (s : MWHeap) (floc : Nat) (m m2 : String)
    (hf : floc < s.fresh) :
    (create_client s floc).2.mem (create_client s floc).1 = s.mem floc
    ∧ (factory_add_middleware (create_client s floc).2 floc m).mem
        (create_client s floc).1
      = (create_client s floc).2.mem (create_client s floc).1
    ∧ (∀ l, l ≠ floc →
        (factory_add_middleware (create_client s floc).2 floc m).mem l
          = (create_client s floc).2.mem l)
    ∧ (factory_add_middleware (create_client s floc).2 floc m).mem floc
      = m :: (create_client s floc).2.mem floc
    ∧ (∀ l, l ≠ (create_client s floc).1 →
        (client_add_middleware (create_client s floc).2 (create_client s floc).1
          m2).mem l = (create_client s floc).2.mem l)
    ∧ (client_add_middleware (create_client s floc).2 (create_client s floc).1
        m2).mem (create_client s floc).1
      = m2 :: (create_client s floc).2.mem (create_client s floc).1 := by
  have hne : s.fresh ≠ floc := fun h => absurd (h ▸ hf) (lt_irrefl _)
  refine ⟨?_, ?_, ?_, ?_, ?_, ?_⟩
  · simp [create_client]
  · simp [create_client, factory_add_middleware, Function.update_apply, hne]
  · intro l hl
    simp [factory_add_middleware, Function.update_apply, hl]
  · simp [factory_add_middleware]
  · intro l hl
    simp only [create_client] at hl ⊢
    simp [client_add_middleware, Function.update_apply, hl]
  · simp [client_add_middleware, create_client]

/-- Witness for C9: a world with one factory at location 0 holding
`["prom"]`; the created client snapshots `["prom"]`, the factory's later
`add_middleware "dummy"` leaves the client at `["prom"]`, and the client's
own `add_middleware "auth"` leaves the factory at `["dummy", "prom"]`
untouched by it. -/
theorem client_middleware_snapshot_witness :
    (create_client ⟨fun _ => ["prom"], 1⟩ 0).2.mem
        (create_client ⟨fun _ => ["prom"], 1⟩ 0).1 = ["prom"]
    ∧ (factory_add_middleware (create_client ⟨fun _ => ["prom"], 1⟩ 0).2 0
        "dummy").mem (create_client ⟨fun _ => ["prom"], 1⟩ 0).1 = ["prom"]
    ∧ (factory_add_middleware (create_client ⟨fun _ => ["prom"], 1⟩ 0).2 0
        "dummy").mem 0 = ["dummy", "prom"] := by
  have h := client_middleware_snapshot ⟨fun _ => ["prom"], 1⟩ 0 "dummy" "auth"
    (by decide)
  refine ⟨h.1, ?_, ?_⟩
  · rw [h.2.1, h.1]
  · rw [h.2.2.2.1]
    simp [create_client, Function.update_apply]

end Blacksmith

